import Mathlib

/-!
Verification of the `calc` expression evaluator (calc.py / calclib.py).

The pipeline `tokenize → implicit_multiplication → to_rpn → eval_rpn` from
calclib.py is embedded shallowly.  Numbers, which the Python code represents
as IEEE-754 doubles (the `Number(float)` class), are modelled as exact
rationals `ℚ`; every computation a claim depends on is exactly representable
in a double, so exact arithmetic agrees with the source on those inputs.
Operator application that would produce an irrational or transcendental
double (e.g. `sqrt 2`, `sin 1`, fractional exponents) is mapped to the
distinguished error `PyError.notModelled`; no claim depends on such values.

Python exceptions become the `PyError` type: `CalcSyntaxError` and
`CalcNameError` from calclib.py, `ZeroDivisionError`, and the plain
`ValueError` used by `factorial` and by the math-domain failures.
-/

namespace Calc

/-- Equality of `Except` values is decidable when it is on both sides;
used to settle concrete claims by evaluation. -/
instance {ε α : Type} [DecidableEq ε] [DecidableEq α] : DecidableEq (Except ε α) :=
  fun a b =>
    match a, b with
    | .ok x, .ok y =>
      if h : x = y then .isTrue (by rw [h])
      else .isFalse (fun hh => h (by cases hh; rfl))
    | .error e, .error f =>
      if h : e = f then .isTrue (by rw [h])
      else .isFalse (fun hh => h (by cases hh; rfl))
    | .ok _, .error _ => .isFalse (fun hh => by cases hh)
    | .error _, .ok _ => .isFalse (fun hh => by cases hh)

/-- Errors raised by the calculator, mirroring the Python exception classes
used in calclib.py.  `notModelled` marks results that exist as floats but are
not exactly representable in the rational abstraction. -/
inductive PyError where
  | calcSyntaxError (msg : String)
  | calcNameError (msg : String)
  | zeroDivisionError (msg : String)
  | valueError (msg : String)
  | notModelled (msg : String)
deriving DecidableEq, Repr

/-- calclib.py line 26: `LEFT, RIGHT = 1, 2`. -/
def LEFT : Nat := 1

/-- calclib.py line 26: `LEFT, RIGHT = 1, 2`. -/
def RIGHT : Nat := 2

/-- One constructor per operator class created by `create_operator_class`
(calclib.py lines 102-131), including the two parenthesis pseudo-operators. -/
inductive OpTag where
  | exponent | division | multiplication | addition | subtraction
  | factorial | negative | positive
  | sqrtOp | sinOp | cosOp | tanOp | asinOp | acosOp | atanOp
  | leftParen | rightParen
deriving DecidableEq, Repr

/-- The `name` attribute of each operator class (calclib.py lines 102-131). -/
def opName : OpTag → String
  | .exponent => "^" | .division => "/" | .multiplication => "*"
  | .addition => "+" | .subtraction => "-"
  | .factorial => "!" | .negative => "-" | .positive => "+"
  | .sqrtOp => "sqrt" | .sinOp => "sin" | .cosOp => "cos" | .tanOp => "tan"
  | .asinOp => "arcsin" | .acosOp => "arccos" | .atanOp => "arctan"
  | .leftParen => "(" | .rightParen => ")"

/-- The `nargs` attribute of each operator class (calclib.py lines 102-131). -/
def opNargs : OpTag → Nat
  | .exponent | .division | .multiplication | .addition | .subtraction => 2
  | .factorial | .negative | .positive => 1
  | .sqrtOp | .sinOp | .cosOp | .tanOp | .asinOp | .acosOp | .atanOp => 1
  | .leftParen | .rightParen => 0

/-- The `rank` attribute of each operator class (calclib.py lines 102-131). -/
def opRank : OpTag → Int
  | .exponent => 1
  | .division | .multiplication => 2
  | .addition | .subtraction => 3
  | .factorial => -2
  | .negative | .positive => -1
  | .sqrtOp | .sinOp | .cosOp | .tanOp | .asinOp | .acosOp | .atanOp => -1
  | .leftParen | .rightParen => 9999

/-- The `assoc` attribute of each operator class (calclib.py lines 102-131);
the parentheses use `0` as in the source. -/
def opAssoc : OpTag → Nat
  | .exponent => RIGHT
  | .division | .multiplication | .addition | .subtraction => LEFT
  | .factorial => LEFT
  | .negative | .positive => RIGHT
  | .sqrtOp | .sinOp | .cosOp | .tanOp | .asinOp | .acosOp | .atanOp => RIGHT
  | .leftParen | .rightParen => 0

/-- A token: either a `Number` (calclib.py lines 29-33, a float with an
optional source position) or an instance of an operator class (position
`none` models Python `pos=None`). -/
inductive Token where
  | number (val : ℚ) (pos : Option Nat)
  | op (tag : OpTag) (pos : Option Nat)
deriving DecidableEq, Repr

/-- The `pos` attribute carried by every token. -/
def Token.pos : Token → Option Nat
  | .number _ p => p
  | .op _ p => p

/-- The exact rational value of the IEEE-754 double `math.e`
(calclib.py line 134). -/
def eVal : ℚ := 6121026514868073 / 2251799813685248

/-- The exact rational value of the IEEE-754 double `math.pi`
(calclib.py line 135). -/
def piVal : ℚ := 884279719003555 / 281474976710656

/-- The `unary` table of calclib.py lines 110-124, including the
`arcsin/arccos/arctan` aliases, as a lookup on the key string. -/
def unaryTable (k : String) : Option OpTag :=
  if k = "!" then some .factorial
  else if k = "-" then some .negative
  else if k = "+" then some .positive
  else if k = "sqrt" then some .sqrtOp
  else if k = "sin" then some .sinOp
  else if k = "cos" then some .cosOp
  else if k = "tan" then some .tanOp
  else if k = "asin" then some .asinOp
  else if k = "acos" then some .acosOp
  else if k = "atan" then some .atanOp
  else if k = "arcsin" then some .asinOp
  else if k = "arccos" then some .acosOp
  else if k = "arctan" then some .atanOp
  else none

/-- The `binary` table of calclib.py lines 102-108 as a lookup on the key
string. -/
def binaryTable (k : String) : Option OpTag :=
  if k = "^" then some .exponent
  else if k = "/" then some .division
  else if k = "*" then some .multiplication
  else if k = "+" then some .addition
  else if k = "-" then some .subtraction
  else none

/-- ASCII decimal digit, the `\d` of `token_re` (calclib.py lines 138-148). -/
def isDigit (c : Char) : Bool := 48 ≤ c.toNat && c.toNat ≤ 57

/-- ASCII lowercase letter, the `[a-z]` of `token_re`. -/
def isLower (c : Char) : Bool := 97 ≤ c.toNat && c.toNat ≤ 122

/-- Whitespace as matched by `\s` (the ASCII whitespace characters; the
claims never exercise non-ASCII whitespace). -/
def isSpace (c : Char) : Bool :=
  c.toNat = 32 || c.toNat = 9 || c.toNat = 10 || c.toNat = 13 ||
  c.toNat = 11 || c.toNat = 12

/-- `s.strip()` (calclib.py line 163): remove leading and trailing
whitespace. -/
def strip (l : List Char) : List Char :=
  ((l.dropWhile isSpace).reverse.dropWhile isSpace).reverse

/-- The raw match produced by `token_re` at one scan position: a word
(`[a-z]+`), a numeric literal (integer part and fraction part digit lists),
or a single non-whitespace symbol character. -/
inductive RawTok where
  | word (w : List Char)
  | num (ip fp : List Char)
  | symbol (c : Char)
deriving DecidableEq, Repr

/-- One application of `token_re.match` (calclib.py lines 138-148) at the
head of the remaining input, before the trailing `\s*`.  Returns the raw
match together with the number of characters it consumed; `none` when the
regex cannot match (only possible at a whitespace character, which the scan
never reaches). -/
def matchRaw : List Char → Option (RawTok × Nat)
  | [] => none
  | c :: cs =>
    if isLower c then
      some (.word ((c :: cs).takeWhile isLower), ((c :: cs).takeWhile isLower).length)
    else if isDigit c then
      let ds := (c :: cs).takeWhile isDigit
      let rest := (c :: cs).drop ds.length
      if rest.head? = some '.' then
        let fs := (rest.drop 1).takeWhile isDigit
        some (.num ds fs, ds.length + 1 + fs.length)
      else some (.num ds [], ds.length)
    else if c = '.' then
      if (cs.head?.map isDigit).getD false then
        let fs := cs.takeWhile isDigit
        some (.num [] fs, 1 + fs.length)
      else some (.symbol c, 1)
    else if isSpace c then none
    else some (.symbol c, 1)

/-- Numeric value of a digit list read in base 10. -/
def natOfDigits (l : List Char) : ℕ :=
  l.foldl (fun acc c => 10 * acc + (c.toNat - 48)) 0

/-- Power of ten as a rational, written through `ℕ` so that concrete claims
reduce without the generic monoid-power instances. -/
def qpow10 (k : ℕ) : ℚ := ((10 ^ k : ℕ) : ℚ)

/-- `float(d["number"])`: the exact value of the decimal literal with integer
part `ip` and fraction part `fp` (the Python code rounds this to the nearest
double; the claims only use literals whose round trip is decided by exact
values). -/
def parseDec (ip fp : List Char) : ℚ :=
  (natOfDigits ip : ℚ) + (natOfDigits fp : ℚ) / qpow10 fp.length

/-- `should_be_right_unary` (calclib.py lines 150-159). -/
def should_be_right_unary (prev : Option Token) : Bool :=
  match prev with
  | none => true
  | some (.op .leftParen _) => true
  | some (.op tg _) => opNargs tg == 2 || opAssoc tg == RIGHT
  | some (.number _ _) => false

/-- Dispatch on one raw match, appending the produced token to the token
list, exactly following calclib.py lines 172-219.  Error messages follow the
source but leave out the interpolated operand text and its quoting. -/
def processRaw (raw : RawTok) (pos : Nat) (acc : List Token) :
    Except PyError (List Token) :=
  match raw with
  | .num ip fp => .ok (acc ++ [.number (parseDec ip fp) (some pos)])
  | .symbol c =>
    if c = '(' then .ok (acc ++ [.op .leftParen (some pos)])
    else if c = ')' then .ok (acc ++ [.op .rightParen (some pos)])
    else
      let key := String.mk [c]
      let badKey : Except PyError (List Token) :=
        if (unaryTable key).isNone && (binaryTable key).isNone then
          .error (.calcSyntaxError ("invalid operator: " ++ key))
        else
          .error (.calcSyntaxError ("operator " ++ key ++ " is in the wrong place"))
      if should_be_right_unary acc.getLast? then
        match unaryTable key with
        | some tg =>
          if opAssoc tg = RIGHT then .ok (acc ++ [.op tg (some pos)]) else badKey
        | none => badKey
      else
        match unaryTable key with
        | some tg =>
          if opAssoc tg = LEFT then .ok (acc ++ [.op tg (some pos)])
          else
            match binaryTable key with
            | some tb => .ok (acc ++ [.op tb (some pos)])
            | none => badKey
        | none =>
          match binaryTable key with
          | some tb => .ok (acc ++ [.op tb (some pos)])
          | none => badKey
  | .word w =>
    let key := String.mk w
    -- constants are the shared `Number` objects of line 133-136: they carry
    -- no source position (their `pos` is `None`)
    if key = "e" then .ok (acc ++ [.number eVal none])
    else if key = "pi" then .ok (acc ++ [.number piVal none])
    else
      match unaryTable key with
      | some tg => .ok (acc ++ [.op tg (some pos)])
      | none => .error (.calcNameError ("I do not know what " ++ key ++ " means"))

/-- The scanning loop of `tokenize` (calclib.py lines 167-222).  The loop is
given fuel so that it is structurally recursive; `tokenize` supplies fuel
`length + 1`, which is proved sufficient because every match consumes at
least one character.  Running out of fuel, or a failed regex match (which in
Python would crash with an `AttributeError`), yield errors that are never
reached from `tokenize`. -/
def tokenizeLoop : Nat → List Char → Nat → List Token → Except PyError (List Token)
  | 0, _, _, _ => .error (.valueError "tokenize: out of fuel")
  | _ + 1, [], _, acc => .ok acc
  | fuel + 1, c :: cs, pos, acc =>
    match matchRaw (c :: cs) with
    | none => .error (.valueError "tokenize: no token matched")
    | some (raw, n) =>
      match processRaw raw pos acc with
      | .error e => .error e
      | .ok acc2 =>
        let rest := (c :: cs).drop n
        let sp := rest.takeWhile isSpace
        tokenizeLoop fuel (rest.drop sp.length) (pos + n + sp.length) acc2

/-- `tokenize` (calclib.py lines 161-223). -/
def tokenize (s : String) : Except PyError (List Token) :=
  let cs := strip s.data
  tokenizeLoop (cs.length + 1) cs 0 []

/-- `isinstance(t, (RightParenthesis, Number))`: the left side of the
implicit-multiplication condition (calclib.py line 230). -/
def leftCond : Token → Bool
  | .number _ _ => true
  | .op .rightParen _ => true
  | _ => false

/-- `isinstance(t, (LeftParenthesis, Number))`: the right side of the
implicit-multiplication condition (calclib.py line 231). -/
def rightCond : Token → Bool
  | .number _ _ => true
  | .op .leftParen _ => true
  | _ => false

/-- The while loop of `implicit_multiplication` (calclib.py lines 228-233),
translated literally: index `i` scans the (mutating) list, inserting a
multiplication operator carrying `tokens[i+1].pos` and then advancing.  The
loop condition `i < len(tokens)-1` is expressed by both lookups succeeding.
Fuel makes the recursion structural; `2 * length + 2` is proved sufficient
below. -/
def implicitMultLoop : Nat → List Token → Nat → Option (List Token)
  | 0, _, _ => none
  | fuel + 1, ts, i =>
    match ts[i]?, ts[i + 1]? with
    | some t1, some t2 =>
      if leftCond t1 && rightCond t2 then
        implicitMultLoop fuel (ts.insertIdx (i + 1) (.op .multiplication t2.pos)) (i + 1)
      else implicitMultLoop fuel ts (i + 1)
    | _, _ => some ts

/-- `implicit_multiplication` (calclib.py lines 225-234): run the loop with
sufficient fuel.  The fallback branch is unreachable (see
`implicitMultLoop_eq_spec`). -/
def implicit_multiplication (ts : List Token) : List Token :=
  match implicitMultLoop (2 * ts.length + 2) ts 0 with
  | some r => r
  | none => ts

/-- Modelled from the spec wording of section 4.2: scan adjacent pairs and,
whenever `t[i]` is a number or right parenthesis and `t[i+1]` is a number or
left parenthesis, insert a binary multiplication token between them carrying
`t[i+1]`'s position, continuing so that triple adjacency gets two
insertions.  Proved equal to the source loop in claim C3. -/
def specInsertImplicitMult : List Token → List Token
  | t1 :: t2 :: rest =>
    if leftCond t1 && rightCond t2 then
      t1 :: .op .multiplication t2.pos :: specInsertImplicitMult (t2 :: rest)
    else t1 :: specInsertImplicitMult (t2 :: rest)
  | l => l

/-- The inner while loop of the `RightParenthesis` case of `to_rpn`
(calclib.py lines 260-268): pop operators to the output until a left
parenthesis surfaces, which is discarded; an empty stack is the
`IndexError` turned into "too many right parentheses". -/
def popUntilParen (stack out : List Token) :
    Except PyError (List Token × List Token) :=
  match stack with
  | [] => .error (.calcSyntaxError "too many right parentheses")
  | top :: rest =>
    match top with
    | .op .leftParen _ => .ok (rest, out)
    | _ => popUntilParen rest (out ++ [top])

/-- The precedence-popping condition of `to_rpn` (calclib.py lines 273-275):
`(token.assoc == LEFT and token.rank >= stack[-1].rank) or (token.assoc ==
RIGHT and token.rank > stack[-1].rank)`.  Only operator tokens ever occur on
the stack, so the `Number` fallback is unreachable. -/
def shouldPop (t top : Token) : Bool :=
  match t, top with
  | .op tg _, .op tp _ =>
    (opAssoc tg == LEFT && opRank tp ≤ opRank tg) ||
    (opAssoc tg == RIGHT && opRank tp < opRank tg)
  | _, _ => false

/-- The while loop of the operator case of `to_rpn` (calclib.py lines
273-276): pop lower-ranking operators to the output. -/
def popWhileLower (t : Token) (stack out : List Token) :
    List Token × List Token :=
  match stack with
  | [] => ([], out)
  | top :: rest =>
    if shouldPop t top then popWhileLower t rest (out ++ [top])
    else (top :: rest, out)

/-- The final drain of `to_rpn` (calclib.py lines 283-289): pop everything
left on the stack, failing on a leftover left parenthesis. -/
def drainStack (stack out : List Token) : Except PyError (List Token) :=
  match stack with
  | [] => .ok out
  | top :: rest =>
    match top with
    | .op .leftParen _ => .error (.calcSyntaxError "too many left parentheses")
    | _ => drainStack rest (out ++ [top])

/-- The token loop of `to_rpn` (calclib.py lines 247-281).  The stack is a
list with its head as the Python list's last element (the top). -/
def to_rpnLoop (tokens out stack : List Token) :
    Except PyError (List Token × List Token) :=
  match tokens with
  | [] => .ok (out, stack)
  | token :: rest =>
    match token with
    | .number _ _ => to_rpnLoop rest (out ++ [token]) stack
    | .op .leftParen _ => to_rpnLoop rest out (token :: stack)
    | .op .rightParen _ =>
      match popUntilParen stack out with
      | .error e => .error e
      | .ok (stack2, out2) => to_rpnLoop rest out2 stack2
    | .op _ _ =>
      match popWhileLower token stack out with
      | (stack2, out2) => to_rpnLoop rest out2 (token :: stack2)

/-- `to_rpn` (calclib.py lines 236-291). -/
def to_rpn (tokens : List Token) : Except PyError (List Token) :=
  match to_rpnLoop tokens [] [] with
  | .error e => .error e
  | .ok (out, stack) => drainStack stack out

/-- Natural power on `ℚ` by explicit recursion (the claims need exact
reduction, which the generic monoid-power instance does not provide). -/
def qnpow (a : ℚ) : ℕ → ℚ
  | 0 => 1
  | k + 1 => qnpow a k * a

/-- `operator.pow` on doubles (used by the `^` operator, calclib.py line
103).  An integral exponent gives the exact rational power, with Python's
`ZeroDivisionError` for a negative power of zero; fractional exponents give
irrational (or complex) doubles that the rational abstraction does not
model. -/
def pyPow (a b : ℚ) : Except PyError ℚ :=
  if b.den = 1 then
    if a = 0 && b < 0 then
      .error (.zeroDivisionError "0.0 cannot be raised to a negative power")
    else if 0 ≤ b.num then .ok (qnpow a b.num.toNat)
    else .ok (Rat.inv (qnpow a (-b.num).toNat))
  else .error (.notModelled "non-integral exponent")

/-- `operator.truediv` on doubles (used by `/`, calclib.py line 104), with
Python's `ZeroDivisionError` message for a zero divisor. -/
def pyDiv (a b : ℚ) : Except PyError ℚ :=
  if b = 0 then .error (.zeroDivisionError "float division by zero")
  else .ok (a / b)

/-- `factorial` (calclib.py lines 93-100).  `reduce(operator.mul,
range(2, int(num)+1), 1)` is the fold over `[2, ..., n]`.  The Python
messages interpolate the operand; the static text is kept. -/
def factorial (num : ℚ) : Except PyError ℚ :=
  if num.den ≠ 1 then
    .error (.valueError "cannot calculate factorial: number must be an integer")
  else if num < 0 then
    .error (.valueError "cannot calculate factorial: number must be non-negative")
  else
    .ok ((((List.range (num.num.toNat + 1)).drop 2).foldl (· * ·) 1 : ℕ) : ℚ)

/-- `math.sqrt` (used by `sqrt`, calclib.py line 114): negative arguments
raise Python's math domain error; an exact rational square root is returned
when one exists, other values are irrational doubles outside the model. -/
def pySqrt (a : ℚ) : Except PyError ℚ :=
  if a < 0 then .error (.valueError "math domain error")
  else
    let sn := Nat.sqrt a.num.toNat
    let sd := Nat.sqrt a.den
    if sn * sn = a.num.toNat ∧ sd * sd = a.den then .ok ((sn : ℚ) / (sd : ℚ))
    else .error (.notModelled "irrational square root")

/-- `math.sin`/`math.cos`/`math.tan`/`math.asin`/`math.acos`/`math.atan`
(calclib.py lines 115-120): only the exact points the doubles agree on are
modelled; `asin`/`acos` raise Python's math domain error outside `[-1, 1]`.
No claim depends on any other value of these functions. -/
def pyTrig (tg : OpTag) (a : ℚ) : Except PyError ℚ :=
  match tg with
  | .sinOp => if a = 0 then .ok 0 else .error (.notModelled "transcendental value")
  | .cosOp => if a = 0 then .ok 1 else .error (.notModelled "transcendental value")
  | .tanOp => if a = 0 then .ok 0 else .error (.notModelled "transcendental value")
  | .asinOp =>
    if a < -1 ∨ 1 < a then .error (.valueError "math domain error")
    else if a = 0 then .ok 0 else .error (.notModelled "transcendental value")
  | .acosOp =>
    if a < -1 ∨ 1 < a then .error (.valueError "math domain error")
    else if a = 1 then .ok 0 else .error (.notModelled "transcendental value")
  | .atanOp => if a = 0 then .ok 0 else .error (.notModelled "transcendental value")
  | _ => .error (.notModelled "not a trig operator")

/-- The unwrapped `func` attribute of each operator class (calclib.py lines
102-121), applied to the argument list in Python's `stack[-nargs:]` order.
A wrong argument count or a parenthesis models the `TypeError` Python would
raise; both are unreachable from `eval_rpn`. -/
def rawApply (tg : OpTag) (args : List ℚ) : Except PyError ℚ :=
  match tg, args with
  | .exponent, [a, b] => pyPow a b
  | .division, [a, b] => pyDiv a b
  | .multiplication, [a, b] => .ok (a * b)
  | .addition, [a, b] => .ok (a + b)
  | .subtraction, [a, b] => .ok (a - b)
  | .factorial, [a] => factorial a
  | .negative, [a] => .ok (-a)
  | .positive, [a] => .ok a
  | .sqrtOp, [a] => pySqrt a
  | .sinOp, [a] | .cosOp, [a] | .tanOp, [a]
  | .asinOp, [a] | .acosOp, [a] | .atanOp, [a] => pyTrig tg a
  | _, _ => .error (.valueError "operator applied to the wrong number of arguments")

/-- `wrap_div_by_zero` (calclib.py lines 68-80): any `ZeroDivisionError`
coming out of the wrapped function is re-raised with the plain message
"division by zero". -/
def wrap_div_by_zero (r : Except PyError ℚ) : Except PyError ℚ :=
  match r with
  | .error (.zeroDivisionError _) => .error (.zeroDivisionError "division by zero")
  | other => other

/-- Calling an operator token (calclib.py lines 58-60): every operator
class's `func` is wrapped by `wrap_div_by_zero` in `create_operator_class`
(line 88). -/
def applyOp (tg : OpTag) (args : List ℚ) : Except PyError ℚ :=
  wrap_div_by_zero (rawApply tg args)

/-- The token loop of `eval_rpn` (calclib.py lines 295-307), with the value
stack's top at the list head; `stack[-nargs:]` is the reversed `take`. -/
def eval_rpnLoop (tokens : List Token) (stack : List ℚ) :
    Except PyError (List ℚ) :=
  match tokens with
  | [] => .ok stack
  | .number v _ :: rest => eval_rpnLoop rest (v :: stack)
  | .op tg _ :: rest =>
    if stack.length < opNargs tg then
      .error (.calcSyntaxError ("not enough values for " ++ opName tg))
    else
      match applyOp tg ((stack.take (opNargs tg)).reverse) with
      | .error e => .error e
      | .ok v => eval_rpnLoop rest (v :: stack.drop (opNargs tg))

/-- `eval_rpn` (calclib.py lines 293-314): after the loop, exactly one value
must remain. -/
def eval_rpn (tokens : List Token) : Except PyError ℚ :=
  match eval_rpnLoop tokens [] with
  | .error e => .error e
  | .ok [v] => .ok v
  | .ok _ => .error (.calcSyntaxError "I do not understand what you are trying to say")

/-- Character for a single decimal digit value. -/
def digitChar (d : ℕ) : Char := Char.ofNat (48 + d)

/-- Decimal digits of `n`, most significant first; fuel makes the recursion
structural (`natDigits` supplies `n` itself, which suffices since `n / 10`
strictly decreases). -/
def natDigitsAux : ℕ → ℕ → List Char
  | 0, _ => []
  | fuel + 1, n =>
    if n = 0 then [] else natDigitsAux fuel (n / 10) ++ [digitChar (n % 10)]

/-- Decimal digit string of a natural number. -/
def natDigits (n : ℕ) : List Char :=
  if n = 0 then ['0'] else natDigitsAux n n

/-- Floor of a rational as an integer (`Int.fdiv` floors because the
denominator is positive). -/
def ratFloor (q : ℚ) : ℤ := q.num.fdiv q.den

/-- Ceiling of a rational as an integer. -/
def ratCeil (q : ℚ) : ℤ := -(ratFloor (-q))

/-- Round to the nearest natural number (ties upward; `%g` breaks exact
decimal ties to even, which no claim exercises). -/
def roundNearest (q : ℚ) : ℕ := (ratFloor (q + mkRat 1 2)).toNat

/-- Base-10 logarithm on naturals with explicit fuel. -/
def natLog10 : ℕ → ℕ → ℕ
  | 0, _ => 0
  | fuel + 1, n => if n < 10 then 0 else natLog10 fuel (n / 10) + 1

/-- Power of ten as a rational at an integer exponent. -/
def zpow10 (k : ℤ) : ℚ :=
  match k with
  | .ofNat m => qpow10 m
  | .negSucc m => Rat.inv (qpow10 (m + 1))

/-- The decimal exponent of a positive rational: the unique `E` with
`10^E ≤ a < 10^(E+1)`. -/
def decExp (a : ℚ) : ℤ :=
  if 1 ≤ a then (natLog10 (ratFloor a).toNat (ratFloor a).toNat : ℤ)
  else -((natLog10 ((ratCeil (Rat.inv a)).toNat - 1) ((ratCeil (Rat.inv a)).toNat - 1) : ℤ) + 1)

/-- Drop trailing `'0'` characters. -/
def stripTrailingZeros (l : List Char) : List Char :=
  (l.reverse.dropWhile (fun c => c == '0')).reverse

/-- Fixed-point layout of `%g`: a six-digit mantissa `m` with decimal
exponent `E`, `-4 ≤ E < 6`, printed with the point after `E+1` digits and
trailing fractional zeros removed. -/
def fixedFormat (m : ℕ) (E : ℤ) : String :=
  if 0 ≤ E then
    let ds := natDigits m
    let ip := ds.take (E.toNat + 1)
    let fp := stripTrailingZeros (ds.drop (E.toNat + 1))
    if fp = [] then String.mk ip else String.mk ip ++ "." ++ String.mk fp
  else
    String.mk (['0', '.'] ++ List.replicate ((-E).toNat - 1) '0' ++
      stripTrailingZeros (natDigits m))

/-- Scientific layout of `%g` (`d.ddddde±XX`), for exponents outside the
fixed-point range. -/
def sciFormat (m : ℕ) (E : ℤ) : String :=
  match natDigits m with
  | [] => "0e+00"
  | d :: rest =>
    let frac := stripTrailingZeros rest
    let mant := if frac = [] then String.mk [d]
                else String.mk [d] ++ "." ++ String.mk frac
    let absE := if E < 0 then (-E).toNat else E.toNat
    mant ++ "e" ++ (if E < 0 then "-" else "+") ++
      (if absE < 10 then "0" else "") ++ String.mk (natDigits absE)

/-- Modelled from the spec and calc.py line 35: the canonical string form
`'%g' % res` of a result, under the exact-rational abstraction of doubles.
`%g` uses six significant digits, fixed-point layout for decimal exponents
in `[-4, 6)` and scientific layout otherwise, and strips trailing
fractional zeros; integral values below `10^6` therefore print as their
plain decimal digits, which the first branch states directly. -/
def formatG (q : ℚ) : String :=
  if q = 0 then "0"
  else
    let sign := if q < 0 then "-" else ""
    let a := if q < 0 then -q else q
    if a.den = 1 ∧ a < 1000000 then sign ++ String.mk (natDigits a.num.toNat)
    else
      let E := decExp a
      let m0 := roundNearest (a * zpow10 (5 - E))
      let m := if 1000000 ≤ m0 then m0 / 10 else m0
      let E2 := if 1000000 ≤ m0 then E + 1 else E
      if E2 < -4 ∨ 6 ≤ E2 then sign ++ sciFormat m E2
      else sign ++ fixedFormat m E2

/-- The `evaluate` entry point of the spec (section 6), the composition run
by calc.py lines 31-34. -/
def evaluate (s : String) : Except PyError ℚ :=
  match tokenize s with
  | .error e => .error e
  | .ok ts =>
    match to_rpn (implicit_multiplication ts) with
    | .error e => .error e
    | .ok rpn => eval_rpn rpn

/-- The token `t` is the one produced by the raw regex match `raw` whose
match began at offset `p` of the stripped input: a numeric literal yields a
`Number` carrying `some p` and the literal's parsed value; a symbol yields
the operator token carrying `some p` whose tag the symbol resolves to (a
parenthesis, or an entry of the unary or binary table); a word yields
either a unary operator carrying `some p`, or — for the constant names —
the position-free constant `Number`.  Used by claim C8 to state that every
token's `pos` is the offset at which its own match began. -/
def tokenFromRaw : RawTok → ℕ → Token → Prop
  | .num ip fp, p, .number v (some q) => q = p ∧ v = parseDec ip fp
  | .symbol c, p, .op tag (some q) =>
    q = p ∧ ((c = '(' ∧ tag = .leftParen) ∨ (c = ')' ∧ tag = .rightParen) ∨
      unaryTable (String.mk [c]) = some tag ∨ binaryTable (String.mk [c]) = some tag)
  | .word w, p, .op tag (some q) => q = p ∧ unaryTable (String.mk w) = some tag
  | .word w, _, .number v none =>
    (String.mk w = "e" ∧ v = eVal) ∨ (String.mk w = "pi" ∧ v = piVal)
  | _, _, _ => False

/-! ### Helper lemmas -/

theorem insertIdx_after_front {α : Type} (x : α) :
    ∀ (pre : List α) (a : α) (l : List α),
    List.insertIdx (pre.length + 1) x (pre ++ a :: l) = pre ++ a :: x :: l := by
  intro pre
  induction pre with
  | nil => intro a l; rfl
  | cons p pre ih =>
    intro a l
    simpa [List.insertIdx_succ_cons] using ih a l

theorem getElem?_at_front {α : Type} (pre l : List α) :
    (pre ++ l)[pre.length]? = l[0]? := by
  rw [List.getElem?_append_right (Nat.le_refl pre.length)]
  simp

theorem getElem?_after_front {α : Type} (pre l : List α) :
    (pre ++ l)[pre.length + 1]? = l[1]? := by
  rw [List.getElem?_append_right (Nat.le_succ_of_le (Nat.le_refl pre.length))]
  simp

/-- The literal while loop of `implicit_multiplication`, run at the boundary
of an already-processed prefix, produces the processed prefix followed by
the pairwise insertion described in the spec — with `2 |ts| + 2` fuel to
spare, since every insertion is immediately followed by a non-inserting
step (the inserted token is an operator). -/
theorem implicitMultLoop_eq (ts : List Token) :
    ∀ (pre : List Token) (fuel : ℕ), 2 * ts.length + 2 ≤ fuel →
    implicitMultLoop fuel (pre ++ ts) pre.length =
      some (pre ++ specInsertImplicitMult ts) := by
  induction ts with
  | nil =>
    intro pre fuel hf
    obtain ⟨f, rfl⟩ : ∃ f, fuel = f + 1 := ⟨fuel - 1, by omega⟩
    rw [implicitMultLoop, getElem?_at_front, getElem?_after_front]
    simp [specInsertImplicitMult]
  | cons t1 ts2 ih =>
    cases ts2 with
    | nil =>
      intro pre fuel hf
      obtain ⟨f, rfl⟩ : ∃ f, fuel = f + 1 := ⟨fuel - 1, by omega⟩
      rw [implicitMultLoop, getElem?_at_front, getElem?_after_front]
      simp [specInsertImplicitMult]
    | cons t2 rest =>
      intro pre fuel hf
      simp only [List.length_cons] at hf
      obtain ⟨f, rfl⟩ : ∃ f, fuel = f + 1 := ⟨fuel - 1, by omega⟩
      rw [implicitMultLoop, getElem?_at_front, getElem?_after_front]
      simp only [List.getElem?_cons_zero, List.getElem?_cons_succ]
      by_cases hc : (leftCond t1 && rightCond t2) = true
      · rw [if_pos hc]
        rw [insertIdx_after_front]
        obtain ⟨f2, rfl⟩ : ∃ f2, f = f2 + 1 := ⟨f - 1, by omega⟩
        have step2 :
            implicitMultLoop (f2 + 1)
              (pre ++ t1 :: Token.op .multiplication t2.pos :: t2 :: rest)
              (pre.length + 1) =
            implicitMultLoop f2
              (pre ++ t1 :: Token.op .multiplication t2.pos :: t2 :: rest)
              (pre.length + 2) := by
          have e1 : pre ++ t1 :: Token.op .multiplication t2.pos :: t2 :: rest
              = (pre ++ [t1]) ++ Token.op .multiplication t2.pos :: t2 :: rest := by
            simp
          have e2 : pre.length + 1 = (pre ++ [t1]).length := by simp
          rw [e1, e2, implicitMultLoop, getElem?_at_front, getElem?_after_front]
          simp [leftCond]
        rw [step2]
        have e3 : pre ++ t1 :: Token.op .multiplication t2.pos :: t2 :: rest
            = (pre ++ [t1, Token.op .multiplication t2.pos]) ++ t2 :: rest := by
          simp
        have e4 : pre.length + 2 = (pre ++ [t1, Token.op .multiplication t2.pos]).length := by
          simp
        rw [e3, e4, ih (pre ++ [t1, Token.op .multiplication t2.pos]) f2
          (by simp only [List.length_cons]; omega)]
        simp [specInsertImplicitMult, hc]
      · rw [if_neg hc]
        have e1 : pre ++ t1 :: t2 :: rest = (pre ++ [t1]) ++ t2 :: rest := by simp
        have e2 : pre.length + 1 = (pre ++ [t1]).length := by simp
        rw [e1, e2, ih (pre ++ [t1]) f (by simp only [List.length_cons]; omega)]
        simp [specInsertImplicitMult, hc]

/-- The source loop and the spec's pairwise description agree. -/
theorem implicit_multiplication_eq_spec (ts : List Token) :
    implicit_multiplication ts = specInsertImplicitMult ts := by
  have h := implicitMultLoop_eq ts [] (2 * ts.length + 2) (Nat.le_refl _)
  simp only [List.nil_append, List.length_nil] at h
  simp [implicit_multiplication, h]

/-- The loop reaches its exit within the given fuel. -/
theorem implicitMultLoop_terminates (ts : List Token) :
    implicitMultLoop (2 * ts.length + 2) ts 0 =
      some (implicit_multiplication ts) := by
  have h := implicitMultLoop_eq ts [] (2 * ts.length + 2) (Nat.le_refl _)
  simp only [List.nil_append, List.length_nil] at h
  rw [h, implicit_multiplication_eq_spec]

theorem takeWhile_length_le {α : Type} (p : α → Bool) (l : List α) :
    (l.takeWhile p).length ≤ l.length :=
  List.Sublist.length_le (List.takeWhile_sublist p)

/-- Every successful regex match consumes at least one character and at most
the remaining input: the scan position strictly advances. -/
theorem matchRaw_progress (cs : List Char) (raw : RawTok) (n : ℕ)
    (h : matchRaw cs = some (raw, n)) : 1 ≤ n ∧ n ≤ cs.length := by
  match cs with
  | [] => simp [matchRaw] at h
  | c :: cs' =>
    rw [matchRaw] at h
    by_cases h1 : isLower c = true
    · rw [if_pos h1, List.takeWhile_cons_of_pos h1] at h
      obtain ⟨-, rfl⟩ := Prod.mk.injEq .. ▸ (Option.some.injEq .. ▸ h)
      refine ⟨by simp, ?_⟩
      simpa using Nat.succ_le_succ (takeWhile_length_le isLower cs')
    · rw [if_neg h1] at h
      by_cases h2 : isDigit c = true
      · rw [if_pos h2] at h
        simp only [] at h
        have hds : 1 ≤ ((c :: cs').takeWhile isDigit).length := by
          rw [List.takeWhile_cons_of_pos h2]; simp
        have hdsle : ((c :: cs').takeWhile isDigit).length ≤ (c :: cs').length :=
          takeWhile_length_le _ _
        by_cases h3 :
            ((c :: cs').drop ((c :: cs').takeWhile isDigit).length).head? = some '.'
        · rw [if_pos h3] at h
          obtain ⟨-, rfl⟩ := Prod.mk.injEq .. ▸ (Option.some.injEq .. ▸ h)
          set rest := (c :: cs').drop ((c :: cs').takeWhile isDigit).length with hrest
          have hrlen : rest.length = (c :: cs').length -
              ((c :: cs').takeWhile isDigit).length := by
            rw [hrest, List.length_drop]
          have hr1 : 1 ≤ rest.length := by
            cases hr : rest with
            | nil => rw [hr] at h3; simp at h3
            | cons a b => simp [hr]
          have hfs : ((rest.drop 1).takeWhile isDigit).length ≤ rest.length - 1 := by
            calc ((rest.drop 1).takeWhile isDigit).length ≤ (rest.drop 1).length :=
                  takeWhile_length_le _ _
            _ = rest.length - 1 := by rw [List.length_drop]
          omega
        · rw [if_neg h3] at h
          obtain ⟨-, rfl⟩ := Prod.mk.injEq .. ▸ (Option.some.injEq .. ▸ h)
          exact ⟨hds, hdsle⟩
      · rw [if_neg h2] at h
        by_cases h3 : c = '.'
        · rw [if_pos h3] at h
          by_cases h4 : (cs'.head?.map isDigit).getD false = true
          · rw [if_pos h4] at h
            obtain ⟨-, rfl⟩ := Prod.mk.injEq .. ▸ (Option.some.injEq .. ▸ h)
            have := takeWhile_length_le isDigit cs'
            simp only [List.length_cons]
            omega
          · rw [if_neg h4] at h
            obtain ⟨-, rfl⟩ := Prod.mk.injEq .. ▸ (Option.some.injEq .. ▸ h)
            simp
        · rw [if_neg h3] at h
          by_cases h5 : isSpace c = true
          · rw [if_pos h5] at h
            simp at h
          · rw [if_neg h5] at h
            obtain ⟨-, rfl⟩ := Prod.mk.injEq .. ▸ (Option.some.injEq .. ▸ h)
            simp

/-- The regex always matches at a non-whitespace character. -/
theorem matchRaw_isSome (c : Char) (cs : List Char) (h : isSpace c = false) :
    (matchRaw (c :: cs)).isSome = true := by
  rw [matchRaw]
  by_cases h1 : isLower c = true
  · simp [h1]
  · rw [if_neg h1]
    by_cases h2 : isDigit c = true
    · rw [if_pos h2]
      simp only []
      split <;> simp
    · rw [if_neg h2]
      by_cases h3 : c = '.'
      · rw [if_pos h3]
        split <;> simp
      · simp [h3, h]

/-- The scanning loop's result does not depend on the fuel, as long as the
fuel exceeds the remaining length: the loop always terminates within
`length` iterations because every match strictly advances the position. -/
theorem tokenizeLoop_fuel (f : ℕ) :
    ∀ (g : ℕ) (cs : List Char) (pos : ℕ) (acc : List Token),
    cs.length < f → cs.length < g →
    tokenizeLoop f cs pos acc = tokenizeLoop g cs pos acc := by
  induction f using Nat.strong_induction_on with
  | _ f ih =>
    intro g cs pos acc hf hg
    obtain ⟨f', rfl⟩ : ∃ f', f = f' + 1 := ⟨f - 1, by omega⟩
    obtain ⟨g', rfl⟩ : ∃ g', g = g' + 1 := ⟨g - 1, by omega⟩
    cases cs with
    | nil => rfl
    | cons c cs' =>
      cases hm : matchRaw (c :: cs') with
      | none => simp only [tokenizeLoop, hm]
      | some rn =>
        obtain ⟨raw, n⟩ := rn
        cases hp : processRaw raw pos acc with
        | error e => simp only [tokenizeLoop, hm, hp]
        | ok acc2 =>
          simp only [tokenizeLoop, hm, hp]
          obtain ⟨hn1, hn2⟩ := matchRaw_progress _ _ _ hm
          have hrest : (((c :: cs').drop n).drop
              (((c :: cs').drop n).takeWhile isSpace).length).length ≤ cs'.length := by
            have e1 := List.length_drop n (c :: cs')
            have e2 := List.length_drop
              (((c :: cs').drop n).takeWhile isSpace).length ((c :: cs').drop n)
            have e3 : (((c :: cs').drop n).takeWhile isSpace).length ≤
                ((c :: cs').drop n).length := takeWhile_length_le _ _
            simp only [List.length_cons] at e1 hn2 ⊢
            omega
          simp only [List.length_cons] at hf hg
          exact ih f' (by omega) g' _ _ _ (by omega) (by omega)

/-- Every successful step of the tokenizer appends exactly one token, and
that token is exactly the one the raw match produces at the current scan
position: it carries `some pos` with the value or tag its matched text
resolves to — except the two constants, which are appended as the shared
position-free `Number` objects. -/
theorem processRaw_shape (raw : RawTok) (pos : ℕ) (acc acc2 : List Token)
    (h : processRaw raw pos acc = .ok acc2) :
    ∃ t, acc2 = acc ++ [t] ∧ tokenFromRaw raw pos t := by
  cases raw with
  | num ip fp =>
    rw [processRaw] at h
    injection h with h
    exact ⟨_, h.symm, rfl, rfl⟩
  | symbol c =>
    rw [processRaw] at h
    by_cases hl : c = '('
    · rw [if_pos hl] at h
      injection h with h
      exact ⟨_, h.symm, rfl, Or.inl ⟨hl, rfl⟩⟩
    · rw [if_neg hl] at h
      by_cases hr : c = ')'
      · rw [if_pos hr] at h
        injection h with h
        exact ⟨_, h.symm, rfl, Or.inr (Or.inl ⟨hr, rfl⟩)⟩
      · rw [if_neg hr] at h
        simp only [] at h
        by_cases hsr : should_be_right_unary acc.getLast? = true
        · rw [if_pos hsr] at h
          cases hu : unaryTable (String.mk [c]) with
          | some tg =>
            simp only [hu] at h
            by_cases ha : opAssoc tg = RIGHT
            · rw [if_pos ha] at h
              injection h with h
              exact ⟨_, h.symm, rfl, Or.inr (Or.inr (Or.inl hu))⟩
            · rw [if_neg ha] at h
              split_ifs at h
          | none =>
            simp only [hu] at h
            split_ifs at h
        · rw [if_neg hsr] at h
          cases hu : unaryTable (String.mk [c]) with
          | some tg =>
            simp only [hu] at h
            by_cases ha : opAssoc tg = LEFT
            · rw [if_pos ha] at h
              injection h with h
              exact ⟨_, h.symm, rfl, Or.inr (Or.inr (Or.inl hu))⟩
            · rw [if_neg ha] at h
              cases hb : binaryTable (String.mk [c]) with
              | some tb =>
                simp only [hb] at h
                injection h with h
                exact ⟨_, h.symm, rfl, Or.inr (Or.inr (Or.inr hb))⟩
              | none =>
                simp only [hb] at h
                split_ifs at h
          | none =>
            simp only [hu] at h
            cases hb : binaryTable (String.mk [c]) with
            | some tb =>
              simp only [hb] at h
              injection h with h
              exact ⟨_, h.symm, rfl, Or.inr (Or.inr (Or.inr hb))⟩
            | none =>
              simp only [hb] at h
              split_ifs at h
  | word w =>
    rw [processRaw] at h
    by_cases he : String.mk w = "e"
    · rw [if_pos he] at h
      injection h with h
      exact ⟨_, h.symm, Or.inl ⟨he, rfl⟩⟩
    · rw [if_neg he] at h
      by_cases hpi : String.mk w = "pi"
      · rw [if_pos hpi] at h
        injection h with h
        exact ⟨_, h.symm, Or.inr ⟨hpi, rfl⟩⟩
      · rw [if_neg hpi] at h
        cases hu : unaryTable (String.mk w) with
        | some tg =>
          simp only [hu] at h
          injection h with h
          exact ⟨_, h.symm, rfl, hu⟩
        | none =>
          simp only [hu] at h
          simp at h

/-- Invariant of the scanning loop: when the remaining input is the suffix
of the full stripped input starting at the current scan position, every
token in a successful result either was already in the accumulator or is
exactly the token produced by the regex match beginning at some offset `p`
of the full input (carrying `some p`, or position-free for the two
constants). -/
theorem tokenizeLoop_pos_bound :
    ∀ (fuel : ℕ) (full cs : List Char) (pos : ℕ) (acc ts : List Token),
    cs = full.drop pos →
    (∀ t ∈ acc, ∃ raw n p, matchRaw (full.drop p) = some (raw, n) ∧
      tokenFromRaw raw p t) →
    tokenizeLoop fuel cs pos acc = .ok ts →
    ∀ t ∈ ts, ∃ raw n p, matchRaw (full.drop p) = some (raw, n) ∧
      tokenFromRaw raw p t := by
  intro fuel
  induction fuel with
  | zero => intro full cs pos acc ts _ _ h; simp [tokenizeLoop] at h
  | succ fuel ih =>
    intro full cs pos acc ts hfull hacc h
    match cs with
    | [] =>
      rw [tokenizeLoop] at h
      injection h with h
      exact h ▸ hacc
    | c :: cs' =>
      rw [tokenizeLoop] at h
      cases hm : matchRaw (c :: cs') with
      | none => simp only [hm] at h; simp at h
      | some rn =>
        obtain ⟨raw, n⟩ := rn
        simp only [hm] at h
        cases hp : processRaw raw pos acc with
        | error e => simp only [hp] at h; simp at h
        | ok acc2 =>
          simp only [hp] at h
          obtain ⟨t0, rfl, ht0⟩ := processRaw_shape _ _ _ _ hp
          have hm0 : matchRaw (full.drop pos) = some (raw, n) := by
            rw [← hfull]; exact hm
          have hacc2 : ∀ t ∈ acc ++ [t0],
              ∃ raw n p, matchRaw (full.drop p) = some (raw, n) ∧
                tokenFromRaw raw p t := by
            intro t ht
            rcases List.mem_append.mp ht with ht | ht
            · exact hacc t ht
            · rcases List.mem_singleton.mp ht with rfl
              exact ⟨raw, n, pos, hm0, ht0⟩
          refine ih full _ _ _ _ ?_ hacc2 h
          rw [hfull, List.drop_drop, List.drop_drop]
          congr 1
          omega

theorem digitChar_toNat (m : ℕ) (h : m < 10) : (digitChar m).toNat = 48 + m := by
  interval_cases m <;> rfl

theorem digitChar_isDigit (m : ℕ) (h : m < 10) : isDigit (digitChar m) = true := by
  interval_cases m <;> rfl

theorem isDigit_not_lower (c : Char) (h : isDigit c = true) : isLower c = false := by
  simp only [isDigit, Bool.and_eq_true, decide_eq_true_eq] at h
  simp only [isLower, Bool.and_eq_false_iff, decide_eq_false_iff_not]
  left; omega

theorem isDigit_not_space (c : Char) (h : isDigit c = true) : isSpace c = false := by
  simp only [isDigit, Bool.and_eq_true, decide_eq_true_eq] at h
  simp only [isSpace, Bool.or_eq_false_iff, decide_eq_false_iff_not]
  omega

theorem takeWhile_all {α : Type} (p : α → Bool) :
    ∀ (l : List α), (∀ c ∈ l, p c = true) → l.takeWhile p = l := by
  intro l
  induction l with
  | nil => intro _; rfl
  | cons c cs ih =>
    intro h
    rw [List.takeWhile_cons_of_pos (h c (by simp))]
    rw [ih (fun x hx => h x (by simp [hx]))]

theorem dropWhile_none {α : Type} (p : α → Bool) :
    ∀ (l : List α), (∀ c ∈ l, p c = false) → l.dropWhile p = l := by
  intro l
  induction l with
  | nil => intro _; rfl
  | cons c cs _ =>
    intro h
    rw [List.dropWhile_cons_of_neg (by simp [h c (by simp)])]

theorem strip_of_no_space (l : List Char) (h : ∀ c ∈ l, isSpace c = false) :
    strip l = l := by
  rw [strip, dropWhile_none isSpace l h]
  rw [dropWhile_none isSpace l.reverse (fun c hc => h c (List.mem_reverse.mp hc))]
  exact List.reverse_reverse l

theorem natDigitsAux_zero (f : ℕ) : natDigitsAux f 0 = [] := by
  cases f <;> simp [natDigitsAux]

theorem natDigitsAux_correct :
    ∀ (fuel n : ℕ), n ≤ fuel →
    natOfDigits (natDigitsAux fuel n) = n ∧
      ∀ c ∈ natDigitsAux fuel n, isDigit c = true := by
  intro fuel
  induction fuel with
  | zero =>
    intro n hn
    obtain rfl : n = 0 := by omega
    exact ⟨rfl, by simp [natDigitsAux]⟩
  | succ f ih =>
    intro n hn
    by_cases h0 : n = 0
    · subst h0
      exact ⟨rfl, by simp [natDigitsAux]⟩
    · rw [natDigitsAux, if_neg h0]
      have hdiv10 : n / 10 < n := Nat.div_lt_self (by omega) (by omega)
      obtain ⟨ihv, ihd⟩ := ih (n / 10) (by omega)
      have hmod : n % 10 < 10 := Nat.mod_lt n (by omega)
      constructor
      · rw [natOfDigits, List.foldl_append]
        rw [show List.foldl (fun acc c => 10 * acc + (c.toNat - 48)) 0
            (natDigitsAux f (n / 10)) = n / 10 from ihv]
        simp only [List.foldl_cons, List.foldl_nil]
        rw [digitChar_toNat (n % 10) hmod]
        omega
      · intro c hc
        rcases List.mem_append.mp hc with hc | hc
        · exact ihd c hc
        · rcases List.mem_singleton.mp hc with rfl
          exact digitChar_isDigit (n % 10) hmod

theorem natDigits_correct (n : ℕ) :
    natOfDigits (natDigits n) = n ∧
      (∀ c ∈ natDigits n, isDigit c = true) ∧ natDigits n ≠ [] := by
  by_cases h : n = 0
  · subst h
    refine ⟨rfl, ?_, by simp [natDigits]⟩
    intro c hc
    simp [natDigits] at hc
    subst hc; rfl
  · rw [natDigits, if_neg h]
    obtain ⟨hv, hd⟩ := natDigitsAux_correct n n (Nat.le_refl n)
    refine ⟨hv, hd, ?_⟩
    obtain ⟨f, rfl⟩ : ∃ f, n = f + 1 := ⟨n - 1, by omega⟩
    rw [natDigitsAux, if_neg h]
    simp

/-- Scanning a nonempty all-digit list matches a single integer literal that
consumes the whole input. -/
theorem matchRaw_digits (l : List Char) (hne : l ≠ [])
    (hd : ∀ c ∈ l, isDigit c = true) :
    matchRaw l = some (.num l [], l.length) := by
  match l with
  | c :: cs =>
    have hc : isDigit c = true := hd c (by simp)
    rw [matchRaw, if_neg (by simp [isDigit_not_lower c hc]), if_pos hc]
    simp only []
    rw [takeWhile_all isDigit (c :: cs) hd]
    rw [List.drop_length]
    simp

/-- Tokenizing a nonempty all-digit string yields the single number token
for that literal at position 0. -/
theorem tokenize_digits (l : List Char) (hne : l ≠ [])
    (hd : ∀ c ∈ l, isDigit c = true) :
    tokenize (String.mk l) = .ok [.number (parseDec l []) (some 0)] := by
  have hdata : (String.mk l).data = l := rfl
  rw [tokenize, hdata, strip_of_no_space l (fun c hc => isDigit_not_space c (hd c hc))]
  match l with
  | c :: cs =>
    simp only [List.length_cons, tokenizeLoop, matchRaw_digits (c :: cs) hne hd,
      processRaw, List.drop_succ_cons, List.drop_length, List.takeWhile_nil,
      List.length_nil, List.drop_nil, List.nil_append]


/-- A single number token passes unchanged through the remaining pipeline
stages. -/
theorem evaluate_single_number (l : List Char) (hne : l ≠ [])
    (hd : ∀ c ∈ l, isDigit c = true) :
    evaluate (String.mk l) = .ok (parseDec l []) := by
  rw [evaluate, tokenize_digits l hne hd]
  rfl

/-- Evaluating the decimal digit string of a natural number returns exactly
that number. -/
theorem evaluate_natDigits (n : ℕ) :
    evaluate (String.mk (natDigits n)) = .ok (n : ℚ) := by
  obtain ⟨hv, hd, hne⟩ := natDigits_correct n
  rw [evaluate_single_number (natDigits n) hne hd]
  rw [show parseDec (natDigits n) [] = ((natOfDigits (natDigits n) : ℕ) : ℚ) from by
    rw [parseDec]
    simp [natOfDigits, qpow10]]
  rw [hv]

/-! ### Claim theorems -/

unseal Rat.add Rat.sub Rat.mul Rat.inv in
/-- C1 (counterexample): the claim states `evaluate("-2^2")` returns `-4`;
the code returns `4`, because unary minus (rank `-1`) binds tighter than the
exponent (rank `1`), so `-2^2` parses as `(-2)^2`. -/
theorem c1_counterexample : evaluate "-2^2" ≠ Except.ok (-4 : ℚ) := by
  decide

unseal Rat.add Rat.sub Rat.mul Rat.inv in
/-- C1 (amended): `evaluate("-2^2")` returns `4`, as fixed by the rank rule
of section 4.3 — unary minus has rank `-1`, the exponent rank `1`, and the
shunting-yard comparison on raw signed ranks pops the unary minus before
pushing `^`, giving `(-2)^2 = 4`. -/
theorem c1_evaluate : evaluate "-2^2" = Except.ok (4 : ℚ) := by
  decide

unseal Rat.add Rat.sub Rat.mul Rat.inv in
/-- C2: `evaluate("2+2") = 4` and `evaluate("2^3^2") = 512`: consecutive
`^` of equal precedence group right-to-left as `2^(3^2)`, not
`(2^3)^2 = 64`. -/
theorem c2_evaluate : evaluate "2+2" = Except.ok (4 : ℚ) ∧
    evaluate "2^3^2" = Except.ok (512 : ℚ) ∧
    evaluate "2^3^2" ≠ Except.ok (64 : ℚ) := by
  refine ⟨by decide, by decide, by decide⟩

unseal Rat.add Rat.sub Rat.mul Rat.inv in
/-- C3: the insertion loop of `implicit_multiplication` equals the spec's
pairwise description (a binary multiplication token, inheriting the right
neighbour's position, between every adjacent value/value pair) for every
token sequence, and in particular never fails; `evaluate("2(3)")`,
`evaluate("2 3")` and `evaluate("2*3")` all give `6`; triple adjacency
`2 3 4` receives two insertions. -/
theorem c3_implicit_multiplication :
    (∀ ts : List Token, implicit_multiplication ts = specInsertImplicitMult ts) ∧
    evaluate "2(3)" = Except.ok (6 : ℚ) ∧
    evaluate "2 3" = Except.ok (6 : ℚ) ∧
    evaluate "2*3" = Except.ok (6 : ℚ) ∧
    implicit_multiplication
      [Token.number 2 (some 0), Token.number 3 (some 2), Token.number 4 (some 4)] =
      [Token.number 2 (some 0), Token.op .multiplication (some 2),
       Token.number 3 (some 2), Token.op .multiplication (some 4),
       Token.number 4 (some 4)] := by
  refine ⟨implicit_multiplication_eq_spec, by decide, by decide, by decide, by decide⟩

unseal Rat.add Rat.sub Rat.mul Rat.inv in
/-- C4 (counterexample): the round trip through the `%g` canonical string
form is not the identity: `evaluate("0.1234567")` succeeds with
`1234567/107`, but `%g` keeps six significant digits, so re-evaluating the
formatted string gives a different value. -/
theorem c4_counterexample :
    evaluate "0.1234567" = Except.ok (1234567 / 10000000 : ℚ) ∧
    formatG (1234567 / 10000000 : ℚ) = "0.123457" ∧
    evaluate (formatG (1234567 / 10000000 : ℚ)) ≠
      Except.ok (1234567 / 10000000 : ℚ) := by
  refine ⟨by decide, by decide, by decide⟩

/-- C4 (amended): for every input line whose value `v` is a nonnegative
integer below `10^6` — so that its `%g` form is exactly its decimal digit
string — feeding the canonical string form of `v` back through `evaluate`
succeeds and yields the same `v`; for other values the six-significant-digit
`%g` formatting can lose precision or switch to exponent notation. -/
theorem c4_roundtrip (s : String) (v : ℚ) (hs : evaluate s = .ok v)
    (hden : v.den = 1) (h0 : 0 ≤ v) (hlt : v < 1000000) :
    evaluate (formatG v) = .ok v := by
  have hnum0 : 0 ≤ v.num := Rat.num_nonneg.mpr h0
  have h1 : ((v.num : ℤ) : ℚ) = v := by
    have h2 := Rat.num_div_den v
    rw [hden] at h2
    simpa using h2
  have hv : ((v.num.toNat : ℕ) : ℚ) = v := by
    rw [← Int.cast_natCast, Int.toNat_of_nonneg hnum0, h1]
  by_cases hv0 : v = 0
  · subst hv0
    have hfmt : formatG 0 = String.mk (natDigits 0) := by decide
    rw [hfmt, evaluate_natDigits 0]
    rfl
  · have hnotneg : ¬(v < 0) := not_lt.mpr h0
    rw [formatG, if_neg hv0]
    simp only [if_neg hnotneg]
    rw [if_pos ⟨hden, hlt⟩]
    have happ : ("" ++ String.mk (natDigits v.num.toNat) : String)
        = String.mk (natDigits v.num.toNat) := rfl
    rw [happ, evaluate_natDigits, hv]

unseal Rat.add Rat.sub Rat.mul Rat.inv in
/-- C4 (witness): the amended round trip at the concrete input `"4"`. -/
theorem c4_roundtrip_witness :
    evaluate "4" = Except.ok (4 : ℚ) ∧ evaluate (formatG 4) = Except.ok (4 : ℚ) :=
  ⟨by decide, c4_roundtrip "4" 4 (by decide) (by decide) (by decide) (by decide)⟩

unseal Rat.add Rat.sub Rat.mul Rat.inv in
/-- C5: an unmatched left parenthesis is reported by `to_rpn` when it is
still on the stack after all input is consumed, and an unmatched right
parenthesis when the stack empties while searching for its partner; both
are `CalcSyntaxError`s with the messages from calclib.py lines 266 and
287. -/
theorem c5_parentheses :
    evaluate "(1+2" = Except.error (.calcSyntaxError "too many left parentheses") ∧
    evaluate "1+2)" = Except.error (.calcSyntaxError "too many right parentheses") := by
  refine ⟨by decide, by decide⟩

unseal Rat.add Rat.sub Rat.mul Rat.inv in
/-- C6: `evaluate("5!") = 120`; `evaluate("(-5)!")` fails with the
arithmetic failure raised by `factorial` for a negative operand (a Python
`ValueError`, the spec's ArithmeticError kind); and `factorial` succeeds
exactly on nonnegative integral arguments. -/
theorem c6_factorial :
    evaluate "5!" = Except.ok (120 : ℚ) ∧
    evaluate "(-5)!" = Except.error
      (.valueError "cannot calculate factorial: number must be non-negative") ∧
    ∀ q : ℚ, (∃ v, factorial q = .ok v) ↔ (q.den = 1 ∧ 0 ≤ q) := by
  refine ⟨by decide, by decide, fun q => ⟨?_, ?_⟩⟩
  · rintro ⟨v, hv⟩
    rw [factorial] at hv
    split_ifs at hv with hd hneg
    exact ⟨not_not.mp hd, not_lt.mp hneg⟩
  · rintro ⟨hd, hpos⟩
    rw [factorial, if_neg (by simp [hd]), if_neg (not_lt.mpr hpos)]
    exact ⟨_, rfl⟩

unseal Rat.add Rat.sub Rat.mul Rat.inv in
/-- C6 (witness): the characterization applied at the concrete argument
`5`. -/
theorem c6_factorial_witness : ∃ v, factorial (5 : ℚ) = .ok v :=
  (c6_factorial.2.2 5).mpr (by decide)

unseal Rat.add Rat.sub Rat.mul Rat.inv in
/-- C7: `evaluate("1/0")` fails with the remapped message "division by
zero": the raw `operator.truediv` failure carries Python's float wording,
and `wrap_div_by_zero` replaces it. -/
theorem c7_division_by_zero :
    evaluate "1/0" = Except.error (.zeroDivisionError "division by zero") ∧
    rawApply .division [1, 0] =
      Except.error (.zeroDivisionError "float division by zero") ∧
    applyOp .division [1, 0] =
      Except.error (.zeroDivisionError "division by zero") := by
  refine ⟨by decide, by decide, by decide⟩

unseal Rat.add Rat.sub Rat.mul Rat.inv in
/-- C8 (counterexample): the token emitted for the constant name `pi`
carries no source position at all — `tokenize` appends the shared constant
object whose `pos` is `None` (calclib.py line 214), not the offset of the
word's first character. -/
theorem c8_counterexample :
    tokenize "pi" = .ok [Token.number piVal none] ∧
    Token.pos (Token.number piVal none) = none := by
  refine ⟨by decide, rfl⟩

/-- C8 (amended): every token returned by `tokenize` carries the source
offset of the first character of the match it was produced from: for some
in-range offset `p` of the whitespace-stripped input, the regex match at
`p` succeeds and produces exactly this token (`tokenFromRaw`), which for a
numeric literal, a symbol operator or a function word forces `pos = some p`
together with the matched text's value or tag — EXCEPT the `NumberLiteral`
tokens emitted for the constant names `e` and `pi`, which are the shared
constant objects and carry no position (their word match also began at
`p`). -/
theorem c8_positions (s : String) (ts : List Token) (t : Token)
    (htok : tokenize s = .ok ts) (hmem : t ∈ ts) :
    ∃ raw n p, matchRaw ((strip s.data).drop p) = some (raw, n) ∧
      p < (strip s.data).length ∧ tokenFromRaw raw p t := by
  rw [tokenize] at htok
  obtain ⟨raw, n, p, hmatch, hrel⟩ :=
    tokenizeLoop_pos_bound ((strip s.data).length + 1) (strip s.data)
      (strip s.data) 0 [] ts (by simp) (by simp) htok t hmem
  refine ⟨raw, n, p, hmatch, ?_, hrel⟩
  by_contra hge
  rw [List.drop_eq_nil_of_le (by omega)] at hmatch
  simp [matchRaw] at hmatch

unseal Rat.add Rat.sub Rat.mul Rat.inv in
/-- C8 (witness): the amended invariant at the concrete input `"2+2"`, for
the `+` operator token: its match begins at offset 1, where the text is
`"+2"`. -/
theorem c8_positions_witness :
    ∃ raw n p, matchRaw ((strip "2+2".data).drop p) = some (raw, n) ∧
      p < (strip "2+2".data).length ∧
      tokenFromRaw raw p (Token.op .addition (some 1)) :=
  c8_positions "2+2"
    [Token.number 2 (some 0), Token.op .addition (some 1), Token.number 2 (some 2)]
    (Token.op .addition (some 1)) (by decide) (by decide)

/-- C9: all four stages terminate unconditionally.  The two nontrivial
loops are covered: every successful tokenizer match strictly advances the
scan position (consuming between 1 and all remaining characters), the
regex matches whenever the scan is at a non-whitespace character, the
scanning loop's result is independent of its fuel once the fuel exceeds
the remaining length (so it finishes within `length` iterations), and the
implicit-multiplication rescan loop reaches its exit within `2n + 2`
iterations even though insertions grow the sequence.  `to_rpn` and
`eval_rpn` are structurally recursive over their inputs. -/
theorem c9_termination :
    (∀ (cs : List Char) (raw : RawTok) (n : ℕ),
      matchRaw cs = some (raw, n) → 1 ≤ n ∧ n ≤ cs.length) ∧
    (∀ (c : Char) (cs : List Char), isSpace c = false →
      (matchRaw (c :: cs)).isSome = true) ∧
    (∀ (f g : ℕ) (cs : List Char) (pos : ℕ) (acc : List Token),
      cs.length < f → cs.length < g →
      tokenizeLoop f cs pos acc = tokenizeLoop g cs pos acc) ∧
    (∀ ts : List Token,
      implicitMultLoop (2 * ts.length + 2) ts 0 =
        some (implicit_multiplication ts)) :=
  ⟨matchRaw_progress, matchRaw_isSome, tokenizeLoop_fuel, implicitMultLoop_terminates⟩

/-- C9 (witness): the termination bounds at concrete inputs. -/
theorem c9_termination_witness :
    (1 ≤ 1 ∧ 1 ≤ (['2'] : List Char).length) ∧
    (matchRaw ['2', '+']).isSome = true ∧
    tokenizeLoop 3 ['2'] 0 [] = tokenizeLoop 2 ['2'] 0 [] ∧
    implicitMultLoop (2 * ([] : List Token).length + 2) [] 0 =
      some (implicit_multiplication []) :=
  ⟨c9_termination.1 ['2'] (.num ['2'] []) 1 (by decide),
   c9_termination.2.1 '2' ['+'] (by decide),
   c9_termination.2.2.1 3 2 ['2'] 0 [] (by decide) (by decide),
   c9_termination.2.2.2 []⟩

unseal Rat.add Rat.sub Rat.mul Rat.inv in
/-- C10: the divide-by-zero remapping wraps every operator's function, not
only division: `evaluate("0^-1")`, which contains no division operator,
fails with exactly "division by zero" (the power function's underlying
`ZeroDivisionError` is remapped), and in general every `ZeroDivisionError`
raised by any raw operator function is remapped by the wrapper installed in
`create_operator_class`. -/
theorem c10_wrap_all_operators :
    evaluate "0^-1" = Except.error (.zeroDivisionError "division by zero") ∧
    ∀ (tg : OpTag) (args : List ℚ) (msg : String),
      rawApply tg args = .error (.zeroDivisionError msg) →
      applyOp tg args = .error (.zeroDivisionError "division by zero") := by
  refine ⟨by decide, fun tg args msg h => ?_⟩
  rw [applyOp, h]
  rfl

unseal Rat.add Rat.sub Rat.mul Rat.inv in
/-- C10 (witness): the remapping at the concrete power failure `0^(-1)`. -/
theorem c10_wrap_witness :
    applyOp .exponent [0, -1] = .error (.zeroDivisionError "division by zero") :=
  c10_wrap_all_operators.2 .exponent [0, -1]
    "0.0 cannot be raised to a negative power" (by decide)

end Calc
